import Mathlib

/-!
Verification of the Videoflix media pipeline (content app) against its
natural-language specification.

Shallow embedding of:
  * `content/models.py`   — the `Video` model, its validators and `save` override
  * `content/utils.py`    — upload-path helpers and the size validator
  * `content/task.py`     — the `process_video` worker
  * `content/api/views.py`— the `video_manifest` / `video_segment` delivery views

Database rows are lists of `Video` records; the filesystem is a list of
normalized component paths; the job queue is a list of asset ids.  ffmpeg
invocations are abstracted by a `WorkerEnv` of success booleans, since only
control flow and persisted state are claimed.
-/

/-- A row of the `Video` model (content/models.py).  `created_at`/`updated_at`
timestamps are not behaviourally load-bearing and are omitted.  CharFields
that are `blank=True, null=True` are `Option String` (`none` = NULL,
`some ""` = blank); Django truthiness of such a field is `truthy` below. -/
structure Video where
  id : Nat
  title : String
  category : String
  description : String
  processing_status : String
  original_video : Option String
  thumbnail_url : String
  hls_480p_path : Option String
  hls_720p_path : Option String
  hls_1080p_path : Option String
deriving DecidableEq

/-- Python truthiness of a nullable CharField value: `None` and `""` are falsy. -/
def truthy : Option String → Bool
  | none => false
  | some s => !s.isEmpty

/-- `Video.objects.get(pk=...)`: first row with the given id. -/
def dbFind (db : List Video) (video_id : Nat) : Option Video :=
  db.find? (fun v => v.id == video_id)

/-- `Video.objects.get(id=movie_id, processing_status='completed')` in the
delivery views. -/
def getCompleted (db : List Video) (movie_id : Nat) : Option Video :=
  db.find? (fun v => v.id == movie_id && v.processing_status == "completed")

/-- Effect of `save(update_fields=["processing_status"])` on one stored row. -/
def setStatusFn (video_id : Nat) (st : String) (w : Video) : Video :=
  if w.id == video_id then { w with processing_status := st } else w

/-- `video.save(update_fields=["processing_status"])`: persist only the status
field of the row with the given id. -/
def dbSetStatus (db : List Video) (video_id : Nat) (st : String) : List Video :=
  db.map (setStatusFn video_id st)

/-- Effect of a full `save()` of in-memory record `v` on one stored row. -/
def updFn (v : Video) (w : Video) : Video :=
  if w.id == v.id then v else w

/-- A full `video.save()`: persist the whole in-memory record over the row
with the same id. -/
def dbUpdate (db : List Video) (v : Video) : List Video :=
  db.map (updFn v)

/-- The persisted status of asset `id` as seen by a reader of snapshot `db`. -/
def statusOf (db : List Video) (id : Nat) : Option String :=
  (dbFind db id).map (fun v => v.processing_status)

/- ## Filesystem paths -/

/-- Split a character list on a separator (the semantics of `str.split(sep)` /
`String.splitOn` for a one-character separator, written so the kernel can
evaluate it). -/
def splitOnChar (sep : Char) : List Char → List (List Char)
  | [] => [[]]
  | c :: rest =>
    let r := splitOnChar sep rest
    if c = sep then [] :: r
    else
      match r with
      | [] => [[c]]
      | g :: gs => (c :: g) :: gs

/-- Per-character ASCII lowercasing (the semantics of `str.lower()`). -/
def lowerStr (s : String) : String :=
  String.mk (s.data.map Char.toLower)

/-- Split a path string on `/`, dropping empty components. -/
def splitPath (s : String) : List String :=
  ((splitOnChar '/' s.data).map (fun cs => String.mk cs)).filter (fun c => c ≠ "")

/-- Resolve `.` and `..` components the way the operating system does when a
path is opened. -/
def normComponents (cs : List String) : List String :=
  cs.foldl (fun acc c =>
    if c = ".." then acc.dropLast else if c = "." then acc else acc ++ [c]) []

/-- The normalized component path a string path refers to on disk. -/
def resolvePath (s : String) : List String :=
  normComponents (splitPath s)

/-- `path` lies inside directory `dir` (both as normalized component lists). -/
def withinDir (dir path : List String) : Prop :=
  dir = path.take dir.length

instance (dir path : List String) : Decidable (withinDir dir path) := by
  unfold withinDir; infer_instance

/-- `settings.MEDIA_ROOT` (project configuration; fixed abstract root). -/
def MEDIA_ROOT : String := "media"

/-- `os.path.join(a, b, c)` for relative `b`, `c`. -/
def pathJoin3 (a b c : String) : String :=
  a ++ "/" ++ b ++ "/" ++ c

/-- `os.path.exists`: the filesystem is the list of normalized component
paths of the files present on disk. -/
def osExists (fs : List (List String)) (p : String) : Bool :=
  fs.contains (resolvePath p)

/- ## Delivery layer (content/api/views.py) -/

/-- Outcome of a delivery view: `ok f` returns the bytes of the file at
normalized path `f` (HTTP 200); `notFound` is the 404 response. -/
inductive DeliveryResult where
  | ok (file : List String)
  | notFound (detail : String)
deriving DecidableEq

/-- The `resolution_map` dictionary lookup in both views: stored HLS path for
a known rendition name, `None` (missing key) otherwise. -/
def resolutionMap (v : Video) (resolution : String) : Option String :=
  if resolution == "480p" then v.hls_480p_path
  else if resolution == "720p" then v.hls_720p_path
  else if resolution == "1080p" then v.hls_1080p_path
  else none

/-- `video_manifest(request, movie_id, resolution)` (views.py lines 62-97). -/
def video_manifest (fs : List (List String)) (db : List Video)
    (movie_id : Nat) (resolution : String) : DeliveryResult :=
  match getCompleted db movie_id with
  | none => .notFound "Video not found or not yet processed"
  | some video =>
    let hls_path := resolutionMap video resolution
    if !truthy hls_path then
      .notFound "Resolution not available"
    else
      let manifest_file := pathJoin3 MEDIA_ROOT (hls_path.getD "") "index.m3u8"
      if osExists fs manifest_file then .ok (resolvePath manifest_file)
      else .notFound "Manifest file not found"

/-- `video_segment(request, movie_id, resolution, segment)` (views.py lines
130-154).  The raw `segment` route parameter is joined into the path with no
validation. -/
def video_segment (fs : List (List String)) (db : List Video)
    (movie_id : Nat) (resolution : String) (segment : String) : DeliveryResult :=
  match getCompleted db movie_id with
  | none => .notFound "Video not found or not yet processed"
  | some video =>
    let hls_path := resolutionMap video resolution
    if !truthy hls_path then
      .notFound "Resolution not available"
    else
      let segment_file := pathJoin3 MEDIA_ROOT (hls_path.getD "") segment
      if osExists fs segment_file then .ok (resolvePath segment_file)
      else .notFound "Segment file not found"

/- ## Upload validation and creation (content/utils.py, content/models.py) -/

/-- `max_size = 10.5 * 1024 * 1024` bytes in `validate_video_size`
(utils.py line 8); 10.5 MiB is exactly 11010048 bytes. -/
def max_size : Nat := 11010048

/-- `validate_video_size(file)` (utils.py lines 6-10): raises ValidationError
exactly when `file.size > max_size`; `true` here means the validator passes. -/
def validate_video_size (size : Nat) : Bool :=
  !(size > max_size)

/-- Allowed extensions of `FileExtensionValidator` on `original_video`
(models.py line 44). -/
def allowed_extensions : List String := ["mp4", "avi", "mov", "mkv"]

/-- The characters after the LAST dot of the list, `none` when no dot
occurs. -/
def suffixAfterLastDot : List Char → Option (List Char)
  | [] => none
  | c :: rest =>
    match suffixAfterLastDot rest with
    | some s => some s
    | none => if c = '.' then some rest else none

/-- The extension `FileExtensionValidator` compares:
`Path(name).suffix[1:].lower()`.  `Path.suffix` is the part of the name from
its last dot, and is empty when the only dot is the leading one (hidden
files such as `".mp4"`) or when the name ends in that dot — so those names
have extension `""` and are rejected. -/
def fileExt (name : String) : String :=
  match name.data with
  | [] => ""
  | _ :: rest =>
    match suffixAfterLastDot rest with
    | none => ""
    | some s => if s.isEmpty then "" else lowerStr (String.mk s)

/-- `video_upload_path(instance, filename)` (utils.py lines 13-15).  Django
evaluates `upload_to` while compiling the INSERT of a new row, before the
primary key is assigned, so `instance.id` is `None` there and the f-string
renders the literal segment `"None"` (the codebase's own
`thumbnail_upload_path` carries a uuid fallback for exactly this). -/
def video_upload_path (id : Option Nat) (filename : String) : String :=
  "videos/original/" ++ (match id with | some i => toString i | none => "None")
    ++ "/" ++ filename

/-- `thumbnail_upload_path(instance, filename)` (utils.py lines 18-21):
the identifier is the instance id when assigned, else a fresh uuid hex. -/
def thumbnail_upload_path (id : Option Nat) (uuidHex : String) (filename : String) : String :=
  "videos/thumbnails/" ++ (match id with | some i => toString i | none => uuidHex) ++ "/" ++ filename

/-- One upload request: metadata plus the source file's name and size, the
uploaded thumbnail image's name, and the uuid Django would draw for its path. -/
structure UploadReq where
  title : String
  category : String
  description : String
  filename : String
  size : Nat
  thumbFilename : String
  uuidHex : String
deriving DecidableEq

/-- Rejection reasons of `create` (§7 error taxonomy): the case-insensitive
title UniqueConstraint (models.py line 54) and the field validators. -/
inductive CreateError where
  | DuplicateTitle
  | InvalidFile
deriving DecidableEq

/-- The case-insensitive title uniqueness check backing
`UniqueConstraint(Lower("title"))`. -/
def titleTaken (db : List Video) (title : String) : Bool :=
  db.any (fun v => lowerStr v.title == lowerStr title)

/-- The row a valid upload persists: default status `pending`
(models.py line 39), files stored at the `upload_to` paths — both upload
paths are computed while the primary key is still unassigned — HLS path
fields NULL. -/
def newVideo (nextId : Nat) (r : UploadReq) : Video :=
  { id := nextId
    title := r.title
    category := r.category
    description := r.description
    processing_status := "pending"
    original_video := some (video_upload_path none r.filename)
    thumbnail_url := thumbnail_upload_path none r.uuidHex r.thumbFilename
    hls_480p_path := none
    hls_720p_path := none
    hls_1080p_path := none }

/-- `create(metadata, source_file)`: validate, then persist a new `Video` row
in status `pending` and enqueue one job for it (the `Video.save` override,
models.py lines 58-64).  On rejection nothing is persisted or enqueued. -/
def create (db : List Video) (queue : List Nat) (nextId : Nat) (r : UploadReq) :
    Except CreateError (List Video × List Nat × Video) :=
  if titleTaken db r.title then .error .DuplicateTitle
  else if !validate_video_size r.size then .error .InvalidFile
  else if !(allowed_extensions.contains (fileExt r.filename)) then .error .InvalidFile
  else
    let v : Video := newVideo nextId r
    .ok (db ++ [v], queue ++ [nextId], v)

/-- Observable actions of the `Video.save` override, in execution order. -/
inductive SaveEvent where
  | persist (id : Nat)
  | enqueue (id : Nat)
deriving DecidableEq

/-- `Video.save(self, ...)` (models.py lines 58-64): remember `is_new = (pk is
None)`, run `super().save()` (which commits the row and assigns `newId` to a
new record), then enqueue exactly when the record was new and has a source
file. -/
def videoSaveEvents (pk : Option Nat) (newId : Nat) (hasFile : Bool) : List SaveEvent :=
  let is_new := pk.isNone
  let id := pk.getD newId
  [SaveEvent.persist id] ++ (if is_new && hasFile then [SaveEvent.enqueue id] else [])

/- ## Transcoding worker (content/task.py) -/

/-- Outcome environment of one worker run: whether the source file exists on
disk, which rendition encodes succeed, whether the thumbnail extraction
succeeds, and how many `.ts` segments each encode emits. -/
structure WorkerEnv where
  sourceExists : Bool
  encodeOk : String → Bool
  thumbOk : Bool
  segCount : Nat

/-- The fixed rendition set, in the iteration order of the `profiles` dict
(task.py lines 108-112). -/
def renditions : List String := ["480p", "720p", "1080p"]

/-- `base_rel / name` (task.py lines 104, 115): the relative output directory
of one rendition. -/
def outRel (video_id : Nat) (name : String) : String :=
  "videos/processed/" ++ toString video_id ++ "/" ++ name

/-- `thumb_rel` (task.py line 132). -/
def thumbRel (video_id : Nat) : String :=
  "videos/thumbnails/" ++ toString video_id ++ ".jpg"

/-- ffmpeg's `%03d` pattern: decimal, zero-padded to width at least 3. -/
def pad3 (n : Nat) : String :=
  let s := toString n
  String.mk (List.replicate (3 - s.length) '0') ++ s

/-- Relative path of the playlist `_transcode_to_hls` writes (task.py line 53). -/
def manifestRel (video_id : Nat) (name : String) : String :=
  outRel video_id name ++ "/index.m3u8"

/-- Relative path of the n-th `.ts` segment (`hls_segment_filename`,
task.py line 50). -/
def segmentRel (video_id : Nat) (name : String) (n : Nat) : String :=
  outRel video_id name ++ "/" ++ pad3 n ++ ".ts"

/-- Relative paths written by one successful `_transcode_to_hls` call. -/
def transcodeWrites (env : WorkerEnv) (video_id : Nat) (name : String) : List String :=
  manifestRel video_id name :: (List.range env.segCount).map (segmentRel video_id name)

/-- The rendition loop body's in-memory field update (task.py lines 124-130);
all three `hasattr` checks are true on this model. -/
def setRendition (v : Video) (name : String) : Video :=
  if name == "480p" then { v with hls_480p_path := some (outRel v.id name) }
  else if name == "720p" then { v with hls_720p_path := some (outRel v.id name) }
  else if name == "1080p" then { v with hls_1080p_path := some (outRel v.id name) }
  else v

/-- The `for name, p in profiles.items()` loop (task.py lines 114-130): encode
each rendition in order, recording its path in memory, until one raises.
Returns the in-memory record, the renditions attempted, the paths written and
whether every encode succeeded. -/
def encodeAll (env : WorkerEnv) : Video → List String → Video × List String × List String × Bool
  | v, [] => (v, [], [], true)
  | v, name :: rest =>
    if env.encodeOk name then
      let (v', att, wr, ok) := encodeAll env (setRendition v name) rest
      (v', name :: att, transcodeWrites env v.id name ++ wr, ok)
    else
      (v, [name], [], false)

/-- Result of one `process_video` run: the persisted database snapshots in
order, the renditions whose encode was attempted, and the relative paths
written on disk. -/
structure WorkerRun where
  snapshots : List (List Video)
  attempted : List String
  writes : List String
deriving DecidableEq

/-- `process_video(video_id)` (task.py lines 86-151).  Loading a missing id
returns silently; otherwise status `processing` is persisted first; the try
block encodes the renditions and the thumbnail; success persists the whole
record (status `completed` plus all paths) in one `save()`; any raise is
absorbed by the except block, which persists only the status field as
`failed`. -/
def process_video (env : WorkerEnv) (db : List Video) (video_id : Nat) : WorkerRun :=
  match dbFind db video_id with
  | none => { snapshots := [], attempted := [], writes := [] }
  | some video0 =>
    let video := { video0 with processing_status := "processing" }
    let db1 := dbSetStatus db video_id "processing"
    let failRun (attempted : List String) (writes : List String) : WorkerRun :=
      { snapshots := [db1, dbSetStatus db1 video_id "failed"]
        attempted := attempted
        writes := writes }
    if !(truthy video.original_video) then failRun [] []
    else if !env.sourceExists then failRun [] []
    else
      match encodeAll env video renditions with
      | (_, att, wr, false) => failRun att wr
      | (v, att, wr, true) =>
        if !env.thumbOk then failRun att wr
        else
          let v2 := { v with
            thumbnail_url := thumbRel v.id
            processing_status := "completed" }
          { snapshots := [db1, dbUpdate db1 v2]
            attempted := att
            writes := wr ++ [thumbRel v.id] }

/-- The database state after a worker run (last persisted snapshot, or the
input when no save happened). -/
def finalDb (env : WorkerEnv) (db : List Video) (video_id : Nat) : List Video :=
  (process_video env db video_id).snapshots.getLast?.getD db

/- ## System model: uploads and worker runs over shared persistent state -/

/-- The shared persistent state: the asset table, the job queue (asset ids in
FIFO order) and the next primary key the database will assign. -/
structure SysState where
  db : List Video
  queue : List Nat
  nextId : Nat

/-- The operations of the pipeline that touch persistent state: an upload
request (validate, persist, enqueue — `Video.save`) and one worker pass
(dequeue one job and run `process_video` to completion). -/
inductive Op where
  | upload (r : UploadReq)
  | work (env : WorkerEnv)

/-- The initial, empty deployment state. -/
def initState : SysState := { db := [], queue := [], nextId := 1 }

/-- One operation: returns the new state and the list of database snapshots a
concurrent reader could observe (one per committed write, in order). -/
def sysStep (s : SysState) : Op → SysState × List (List Video)
  | .upload r =>
    match create s.db s.queue s.nextId r with
    | .error _ => (s, [])
    | .ok (db', q', _) => ({ db := db', queue := q', nextId := s.nextId + 1 }, [db'])
  | .work env =>
    match s.queue with
    | [] => (s, [])
    | id :: rest =>
      let run := process_video env s.db id
      ({ db := run.snapshots.getLast?.getD s.db, queue := rest, nextId := s.nextId },
       run.snapshots)

/-- Run a list of operations, accumulating every observable snapshot. -/
def runOps : SysState → List Op → SysState × List (List Video)
  | s, [] => (s, [])
  | s, op :: rest =>
    let p1 := sysStep s op
    let p2 := runOps p1.1 rest
    (p2.1, p1.2 ++ p2.2)

/-- Every database state a reader can observe over a run from the empty
deployment: the initial state followed by each committed write. -/
def history (ops : List Op) : List (List Video) :=
  initState.db :: (runOps initState ops).2

/-- The asset-status transitions the spec's lifecycle state machine allows
between two consecutively observable snapshots (`none` = row absent). -/
def allowedTransition : Option String → Option String → Prop
  | none, none => True
  | none, some b => b = "pending"
  | some _, none => False
  | some a, some b =>
      a = b ∨ (a = "pending" ∧ b = "processing")
        ∨ (a = "processing" ∧ (b = "completed" ∨ b = "failed"))

instance (a b : Option String) : Decidable (allowedTransition a b) := by
  cases a <;> cases b <;> unfold allowedTransition <;> infer_instance

/-- The ids present in a database snapshot. -/
def dbIds (db : List Video) : List Nat := db.map (fun v => v.id)

/-- Adjacent snapshots respect the lifecycle state machine for every asset
(ids outside both snapshots hold trivially, so quantifying over the ids
present in either suffices and keeps the predicate decidable). -/
def allowedStep (d1 d2 : List Video) : Prop :=
  ∀ id ∈ dbIds d1 ++ dbIds d2, allowedTransition (statusOf d1 id) (statusOf d2 id)

/-- Per-row path/status invariant: a completed row carries all three rendition
paths and a thumbnail path; a row in any non-completed status carries no
rendition path (they are only ever persisted by the final completed save). -/
def pathsOk (v : Video) : Prop :=
  (v.processing_status = "completed" →
    truthy v.hls_480p_path = true ∧ truthy v.hls_720p_path = true ∧
      truthy v.hls_1080p_path = true ∧ v.thumbnail_url ≠ "")
  ∧ (v.processing_status ≠ "completed" →
    v.hls_480p_path = none ∧ v.hls_720p_path = none ∧ v.hls_1080p_path = none)

/-- Reachability invariant of the pipeline state. -/
def SysInv (s : SysState) : Prop :=
  (∀ id ∈ s.queue, statusOf s.db id = some "pending")
  ∧ (∀ v ∈ s.db, v.id < s.nextId)
  ∧ (∀ id ∈ s.queue, id < s.nextId)
  ∧ s.queue.Nodup
  ∧ (dbIds s.db).Nodup
  ∧ (∀ v ∈ s.db, pathsOk v)

/- ## Basic database lemmas -/

theorem setStatusFn_id (i : Nat) (st : String) (w : Video) :
    (setStatusFn i st w).id = w.id := by
  unfold setStatusFn; split <;> rfl

theorem updFn_id (v w : Video) : (updFn v w).id = w.id := by
  unfold updFn
  split
  · next h => exact (eq_of_beq h).symm
  · rfl

theorem dbFind_eq_some_id {db : List Video} {j : Nat} {v : Video}
    (h : dbFind db j = some v) : v.id = j := by
  unfold dbFind at h
  have hp := List.find?_some h
  simp only [beq_iff_eq] at hp
  exact hp

theorem dbFind_map_idpres (g : Video → Video) (h : ∀ w, (g w).id = w.id)
    (db : List Video) (j : Nat) :
    dbFind (db.map g) j = (dbFind db j).map g := by
  induction db with
  | nil => rfl
  | cons w t ih =>
    unfold dbFind at *
    simp only [List.map_cons, List.find?]
    rw [h w]
    cases hwj : w.id == j <;> simp [hwj, ih]

theorem dbIds_map_idpres (g : Video → Video) (h : ∀ w, (g w).id = w.id)
    (db : List Video) : dbIds (db.map g) = dbIds db := by
  unfold dbIds
  rw [List.map_map]
  exact List.map_congr_left (fun w _ => h w)

theorem dbFind_isSome_iff (db : List Video) (j : Nat) :
    (dbFind db j).isSome = true ↔ j ∈ dbIds db := by
  induction db with
  | nil => simp [dbFind, dbIds]
  | cons w t ih =>
    unfold dbFind dbIds at *
    simp only [List.find?, List.map_cons, List.mem_cons]
    cases hwj : w.id == j with
    | false =>
      have hne : ¬ j = w.id := by
        intro he
        rw [he] at hwj
        simp at hwj
      simp [hne, ih]
    | true =>
      have he : w.id = j := eq_of_beq hwj
      simp [he]

theorem dbFind_of_mem_nodup {db : List Video} {v : Video}
    (h : (dbIds db).Nodup) (hv : v ∈ db) : dbFind db v.id = some v := by
  induction db with
  | nil => cases hv
  | cons w t ih =>
    unfold dbIds at h
    simp only [List.map_cons, List.nodup_cons] at h
    rcases List.mem_cons.mp hv with rfl | hvt
    · unfold dbFind
      simp [List.find?]
    · have hne : w.id ≠ v.id := by
        intro he
        exact h.1 (he ▸ List.mem_map.mpr ⟨v, hvt, rfl⟩)
      unfold dbFind at *
      simp only [List.find?]
      cases hwj : w.id == v.id with
      | false => exact ih h.2 hvt
      | true => exact absurd (eq_of_beq hwj) hne

theorem statusOf_setStatus_other (db : List Video) (i : Nat) (st : String)
    (j : Nat) (h : j ≠ i) :
    statusOf (dbSetStatus db i st) j = statusOf db j := by
  unfold statusOf dbSetStatus
  rw [dbFind_map_idpres _ (setStatusFn_id i st)]
  cases hf : dbFind db j with
  | none => rfl
  | some v =>
    have hvj : v.id = j := dbFind_eq_some_id hf
    have hfalse : (v.id == i) = false := by
      rw [hvj]
      exact beq_eq_false_iff_ne.mpr h
    simp [setStatusFn, hfalse]

theorem statusOf_setStatus_self (db : List Video) (i : Nat) (st : String)
    {v : Video} (h : dbFind db i = some v) :
    statusOf (dbSetStatus db i st) i = some st := by
  unfold statusOf dbSetStatus
  rw [dbFind_map_idpres _ (setStatusFn_id i st), h]
  have hvj : v.id = i := dbFind_eq_some_id h
  simp [setStatusFn, hvj]

theorem statusOf_update_other (db : List Video) (v2 : Video)
    (j : Nat) (h : j ≠ v2.id) :
    statusOf (dbUpdate db v2) j = statusOf db j := by
  unfold statusOf dbUpdate
  rw [dbFind_map_idpres _ (updFn_id v2)]
  cases hf : dbFind db j with
  | none => rfl
  | some v =>
    have hvj : v.id = j := dbFind_eq_some_id hf
    have hfalse : (v.id == v2.id) = false := by
      rw [hvj]
      exact beq_eq_false_iff_ne.mpr h
    simp [updFn, hfalse]

theorem statusOf_update_self (db : List Video) (v2 : Video)
    {v : Video} (h : dbFind db v2.id = some v) :
    statusOf (dbUpdate db v2) v2.id = some v2.processing_status := by
  unfold statusOf dbUpdate
  rw [dbFind_map_idpres _ (updFn_id v2), h]
  have hvj : v.id = v2.id := dbFind_eq_some_id h
  simp [updFn, hvj]

theorem dbFind_append_single (db : List Video) (v : Video) (j : Nat) :
    dbFind (db ++ [v]) j =
      match dbFind db j with
      | some w => some w
      | none => if v.id == j then some v else none := by
  induction db with
  | nil =>
    unfold dbFind
    simp only [List.nil_append, List.find?]
    cases hvj : v.id == j <;> simp [hvj]
  | cons w t ih =>
    unfold dbFind at *
    simp only [List.cons_append, List.find?]
    cases hwj : w.id == j <;> simp [hwj, ih]

/- ## Worker-run lemmas -/

theorem setRendition_id (v : Video) (name : String) :
    (setRendition v name).id = v.id := by
  unfold setRendition
  split
  · rfl
  · split
    · rfl
    · split <;> rfl

/-- The in-memory record after a fully successful completed save. -/
def completedRec (v : Video) : Video :=
  { v with
    processing_status := "completed"
    thumbnail_url := thumbRel v.id
    hls_480p_path := some (outRel v.id "480p")
    hls_720p_path := some (outRel v.id "720p")
    hls_1080p_path := some (outRel v.id "1080p") }

/-- All relative paths a fully successful run writes, as a function of the
asset id alone (given the encoder's segment count). -/
def canonicalWrites (env : WorkerEnv) (i : Nat) : List String :=
  transcodeWrites env i "480p" ++ transcodeWrites env i "720p" ++
    transcodeWrites env i "1080p" ++ [thumbRel i]

theorem encodeAll_success (env : WorkerEnv) (v : Video)
    (h480 : env.encodeOk "480p" = true) (h720 : env.encodeOk "720p" = true)
    (h1080 : env.encodeOk "1080p" = true) :
    encodeAll env v renditions =
      ({ v with
          hls_480p_path := some (outRel v.id "480p")
          hls_720p_path := some (outRel v.id "720p")
          hls_1080p_path := some (outRel v.id "1080p") },
        renditions,
        transcodeWrites env v.id "480p" ++ transcodeWrites env v.id "720p" ++
          transcodeWrites env v.id "1080p",
        true) := by
  simp [renditions, encodeAll, h480, h720, h1080, setRendition]

theorem process_video_none (env : WorkerEnv) (db : List Video) (id : Nat)
    (h : dbFind db id = none) :
    process_video env db id = { snapshots := [], attempted := [], writes := [] } := by
  unfold process_video
  rw [h]

theorem process_video_success (env : WorkerEnv) (db : List Video) (id : Nat)
    (v : Video) (hf : dbFind db id = some v)
    (horig : truthy v.original_video = true)
    (hsrc : env.sourceExists = true)
    (h480 : env.encodeOk "480p" = true) (h720 : env.encodeOk "720p" = true)
    (h1080 : env.encodeOk "1080p" = true) (hth : env.thumbOk = true) :
    process_video env db id =
      { snapshots := [dbSetStatus db id "processing",
          dbUpdate (dbSetStatus db id "processing") (completedRec v)]
        attempted := renditions
        writes := canonicalWrites env v.id } := by
  unfold process_video
  rw [hf]
  simp only [horig, hsrc, hth,
    encodeAll_success env { v with processing_status := "processing" } h480 h720 h1080]
  simp [completedRec, canonicalWrites]

theorem dbSetStatus_dbSetStatus (db : List Video) (i : Nat) (st1 st2 : String) :
    dbSetStatus (dbSetStatus db i st1) i st2 = dbSetStatus db i st2 := by
  unfold dbSetStatus
  rw [List.map_map]
  apply List.map_congr_left
  intro w _
  by_cases h : w.id = i
  · simp [setStatusFn, h]
  · simp [setStatusFn, h]

theorem process_video_fail_shape (env : WorkerEnv) (db : List Video) (id : Nat)
    (v : Video) (hf : dbFind db id = some v)
    (hfail : ¬(truthy v.original_video = true ∧ env.sourceExists = true ∧
      env.encodeOk "480p" = true ∧ env.encodeOk "720p" = true ∧
      env.encodeOk "1080p" = true ∧ env.thumbOk = true)) :
    (process_video env db id).snapshots =
      [dbSetStatus db id "processing", dbSetStatus db id "failed"] := by
  unfold process_video
  rw [hf]
  cases horig : truthy v.original_video with
  | false => simp [horig, dbSetStatus_dbSetStatus]
  | true =>
    cases hsrc : env.sourceExists with
    | false => simp [horig, hsrc, dbSetStatus_dbSetStatus]
    | true =>
      cases h480 : env.encodeOk "480p" with
      | false =>
        simp [renditions, encodeAll, horig, hsrc, h480, setRendition,
          dbSetStatus_dbSetStatus]
      | true =>
        cases h720 : env.encodeOk "720p" with
        | false =>
          simp [renditions, encodeAll, horig, hsrc, h480, h720, setRendition,
            dbSetStatus_dbSetStatus]
        | true =>
          cases h1080 : env.encodeOk "1080p" with
          | false =>
            simp [renditions, encodeAll, horig, hsrc, h480, h720, h1080,
              setRendition, dbSetStatus_dbSetStatus]
          | true =>
            cases hth : env.thumbOk with
            | false =>
              simp [horig, hsrc, hth, dbSetStatus_dbSetStatus,
                encodeAll_success env { v with processing_status := "processing" }
                  h480 h720 h1080]
            | true => exact absurd ⟨horig, hsrc, h480, h720, h1080, hth⟩ hfail

/- ## String and path non-emptiness -/

theorem append_ne_empty (a b : String) (h : 0 < a.length) : a ++ b ≠ "" := by
  intro he
  have hl := congrArg String.length he
  rw [String.length_append, show ("" : String).length = 0 from rfl] at hl
  omega

theorem outRel_ne_empty (i : Nat) (r : String) : outRel i r ≠ "" := by
  unfold outRel
  apply append_ne_empty
  rw [String.length_append, String.length_append]
  have h17 : ("videos/processed/" : String).length = 17 := by decide
  omega

theorem thumbRel_ne_empty (i : Nat) : thumbRel i ≠ "" := by
  unfold thumbRel
  apply append_ne_empty
  rw [String.length_append]
  have h18 : ("videos/thumbnails/" : String).length = 18 := by decide
  omega

theorem thumbnail_upload_path_ne_empty (id : Option Nat) (u f : String) :
    thumbnail_upload_path id u f ≠ "" := by
  unfold thumbnail_upload_path
  apply append_ne_empty
  rw [String.length_append, String.length_append]
  have h18 : ("videos/thumbnails/" : String).length = 18 := by decide
  omega

theorem truthy_of_ne_empty {s : String} (h : s ≠ "") : truthy (some s) = true := by
  have hie : s.isEmpty = false := by
    cases hie : s.isEmpty
    · rfl
    · exact absurd ((String.isEmpty_iff s).mp hie) h
  simp [truthy, hie]

/- ## Path/status invariant lemmas -/

theorem pathsOk_completedRec (v : Video) : pathsOk (completedRec v) := by
  unfold pathsOk completedRec
  refine ⟨fun _ => ⟨?_, ?_, ?_, ?_⟩, fun hnc => absurd rfl hnc⟩
  · exact truthy_of_ne_empty (outRel_ne_empty v.id "480p")
  · exact truthy_of_ne_empty (outRel_ne_empty v.id "720p")
  · exact truthy_of_ne_empty (outRel_ne_empty v.id "1080p")
  · exact thumbRel_ne_empty v.id

theorem pathsOk_newVideo (n : Nat) (r : UploadReq) : pathsOk (newVideo n r) := by
  unfold pathsOk newVideo
  exact ⟨fun hc => by simp at hc, fun _ => ⟨rfl, rfl, rfl⟩⟩

theorem pathsOk_dbSetStatus (db : List Video) (i : Nat) (st : String)
    (hst : st ≠ "completed")
    (hall : ∀ v ∈ db, pathsOk v)
    (hnc : ∀ v ∈ db, v.id = i → v.processing_status ≠ "completed") :
    ∀ v ∈ dbSetStatus db i st, pathsOk v := by
  intro v hv
  unfold dbSetStatus at hv
  rcases List.mem_map.mp hv with ⟨w, hw, rfl⟩
  unfold setStatusFn
  by_cases h : (w.id == i) = true
  · rw [if_pos h]
    have hwp := (hall w hw).2 (hnc w hw (eq_of_beq h))
    exact ⟨fun hc => absurd hc hst, fun _ => hwp⟩
  · rw [if_neg h]
    exact hall w hw

theorem pathsOk_dbUpdate (db : List Video) (v2 : Video)
    (hv2 : pathsOk v2) (hall : ∀ v ∈ db, pathsOk v) :
    ∀ v ∈ dbUpdate db v2, pathsOk v := by
  intro v hv
  unfold dbUpdate at hv
  rcases List.mem_map.mp hv with ⟨w, hw, rfl⟩
  unfold updFn
  split
  · exact hv2
  · exact hall w hw

/- ## Transition lemmas -/

theorem allowedTransition_refl (x : Option String) : allowedTransition x x := by
  cases x
  · trivial
  · exact Or.inl rfl

theorem statusOf_none_of_find_none {db : List Video} {j : Nat}
    (h : dbFind db j = none) : statusOf db j = none := by
  unfold statusOf
  rw [h]
  rfl

theorem statusOf_some_of_find {db : List Video} {j : Nat} {u : Video}
    (h : dbFind db j = some u) : statusOf db j = some u.processing_status := by
  unfold statusOf
  rw [h]
  rfl

theorem allowedStep_setStatus (db : List Video) (i : Nat) (st : String)
    (h : ∀ u, dbFind db i = some u →
      allowedTransition (some u.processing_status) (some st)) :
    allowedStep db (dbSetStatus db i st) := by
  intro j _
  by_cases hji : j = i
  · subst hji
    cases hf : dbFind db j with
    | none =>
      have h2 : statusOf (dbSetStatus db j st) j = none := by
        unfold statusOf dbSetStatus
        rw [dbFind_map_idpres _ (setStatusFn_id j st), hf]
        rfl
      rw [statusOf_none_of_find_none hf, h2]
      trivial
    | some u =>
      rw [statusOf_some_of_find hf, statusOf_setStatus_self db j st hf]
      exact h u hf
  · rw [statusOf_setStatus_other db i st j hji]
    exact allowedTransition_refl _

theorem allowedStep_update (db : List Video) (v2 : Video)
    (h : ∀ u, dbFind db v2.id = some u →
      allowedTransition (some u.processing_status) (some v2.processing_status)) :
    allowedStep db (dbUpdate db v2) := by
  intro j _
  by_cases hji : j = v2.id
  · rw [hji]
    cases hf : dbFind db v2.id with
    | none =>
      have h2 : statusOf (dbUpdate db v2) v2.id = none := by
        unfold statusOf dbUpdate
        rw [dbFind_map_idpres _ (updFn_id v2), hf]
        rfl
      rw [statusOf_none_of_find_none hf, h2]
      trivial
    | some u =>
      rw [statusOf_some_of_find hf, statusOf_update_self db v2 hf]
      exact h u hf
  · rw [statusOf_update_other db v2 j hji]
    exact allowedTransition_refl _

theorem statusOf_append_of_isSome {db : List Video} {j : Nat} {u : Video}
    (v : Video) (h : dbFind db j = some u) :
    statusOf (db ++ [v]) j = statusOf db j := by
  unfold statusOf
  rw [dbFind_append_single, h]

theorem statusOf_append_fresh {db : List Video} (v : Video)
    (h : dbFind db v.id = none) :
    statusOf (db ++ [v]) v.id = some v.processing_status := by
  unfold statusOf
  rw [dbFind_append_single, h]
  simp

theorem allowedStep_append (db : List Video) (v : Video)
    (hfresh : dbFind db v.id = none) (hpend : v.processing_status = "pending") :
    allowedStep db (db ++ [v]) := by
  intro j _
  by_cases hjv : j = v.id
  · rw [hjv]
    rw [statusOf_none_of_find_none hfresh, statusOf_append_fresh v hfresh]
    exact hpend
  · cases hf : dbFind db j with
    | none =>
      have h2 : statusOf (db ++ [v]) j = none := by
        unfold statusOf
        rw [dbFind_append_single, hf]
        have : (v.id == j) = false := beq_eq_false_iff_ne.mpr (fun he => hjv he.symm)
        simp [this]
      rw [statusOf_none_of_find_none hf, h2]
      trivial
    | some u =>
      rw [statusOf_append_of_isSome v hf]
      exact allowedTransition_refl _

/-- Rows of a database with unique ids are determined by their id. -/
theorem row_eq_of_mem_nodup {db : List Video} {w u : Video} {i : Nat}
    (hnodup : (dbIds db).Nodup) (hf : dbFind db i = some u)
    (hw : w ∈ db) (hwid : w.id = i) : w = u := by
  have h1 := dbFind_of_mem_nodup hnodup hw
  rw [hwid, hf] at h1
  exact (Option.some.inj h1).symm

theorem create_error_or_ok (db : List Video) (q : List Nat) (n : Nat)
    (r : UploadReq) :
    (∃ e, create db q n r = .error e) ∨
      create db q n r = .ok (db ++ [newVideo n r], q ++ [n], newVideo n r) := by
  unfold create
  by_cases h1 : titleTaken db r.title = true
  · exact Or.inl ⟨CreateError.DuplicateTitle, by simp [h1]⟩
  · by_cases h2 : validate_video_size r.size = true
    · by_cases h3 : fileExt r.filename ∈ allowed_extensions
      · right
        simp [h1, h2, h3]
      · exact Or.inl ⟨CreateError.InvalidFile, by simp [h1, h2, h3]⟩
    · exact Or.inl ⟨CreateError.InvalidFile, by simp [h1, h2]⟩

theorem dbFind_none_of_lt (db : List Video) (n : Nat)
    (hid : ∀ v ∈ db, v.id < n) : dbFind db n = none := by
  cases hf : dbFind db n with
  | none => rfl
  | some w =>
    have hw : w ∈ db := by
      unfold dbFind at hf
      exact List.mem_of_find?_eq_some hf
    have hlt := hid w hw
    rw [dbFind_eq_some_id hf] at hlt
    omega

theorem find_of_statusOf_some {db : List Video} {j : Nat} {st : String}
    (h : statusOf db j = some st) :
    ∃ u, dbFind db j = some u ∧ u.processing_status = st := by
  unfold statusOf at h
  cases hf : dbFind db j with
  | none => rw [hf] at h; cases h
  | some u =>
    rw [hf] at h
    exact ⟨u, rfl, Option.some.inj h⟩

theorem dbIds_dbSetStatus (db : List Video) (i : Nat) (st : String) :
    dbIds (dbSetStatus db i st) = dbIds db := by
  unfold dbSetStatus
  exact dbIds_map_idpres _ (setStatusFn_id i st) db

theorem dbIds_dbUpdate (db : List Video) (v : Video) :
    dbIds (dbUpdate db v) = dbIds db := by
  unfold dbUpdate
  exact dbIds_map_idpres _ (updFn_id v) db

theorem dbFind_dbSetStatus_of_find {db : List Video} {i : Nat} {u : Video}
    (st : String) (hf : dbFind db i = some u) :
    dbFind (dbSetStatus db i st) i = some { u with processing_status := st } := by
  unfold dbSetStatus
  rw [dbFind_map_idpres _ (setStatusFn_id i st), hf]
  simp [setStatusFn, dbFind_eq_some_id hf]

theorem id_lt_of_mem_dbIds {db : List Video} {n : Nat}
    (hid : ∀ v ∈ db, v.id < n) : ∀ j ∈ dbIds db, j < n := by
  intro j hj
  rcases List.mem_map.mp hj with ⟨w, hw, rfl⟩
  exact hid w hw

theorem sysStep_upload_ok {s : SysState} {r : UploadReq} {db' : List Video}
    {q' : List Nat} {v : Video}
    (hc : create s.db s.queue s.nextId r = .ok (db', q', v)) :
    sysStep s (.upload r) =
      ({ db := db', queue := q', nextId := s.nextId + 1 }, [db']) := by
  simp only [sysStep]
  rw [hc]

theorem sysStep_upload_err {s : SysState} {r : UploadReq} {e : CreateError}
    (hc : create s.db s.queue s.nextId r = .error e) :
    sysStep s (.upload r) = (s, []) := by
  simp only [sysStep]
  rw [hc]

theorem sysStep_work_nil {s : SysState} {env : WorkerEnv}
    (hqe : s.queue = []) : sysStep s (.work env) = (s, []) := by
  simp only [sysStep]
  rw [hqe]

theorem sysStep_work_cons {s : SysState} {env : WorkerEnv} {i : Nat}
    {rest : List Nat} (hqe : s.queue = i :: rest) :
    sysStep s (.work env) =
      ({ db := (process_video env s.db i).snapshots.getLast?.getD s.db,
          queue := rest, nextId := s.nextId },
        (process_video env s.db i).snapshots) := by
  simp only [sysStep]
  rw [hqe]

theorem sysStep_sound (s : SysState) (op : Op) (h : SysInv s) :
    SysInv (sysStep s op).1
    ∧ List.Chain' allowedStep (s.db :: (sysStep s op).2)
    ∧ (s.db :: (sysStep s op).2).getLast? = some (sysStep s op).1.db
    ∧ (∀ d ∈ (sysStep s op).2, ∀ v ∈ d, pathsOk v) := by
  obtain ⟨hq, hid, hqid, hqnd, hdnd, hpo⟩ := h
  cases op with
  | upload r =>
    rcases create_error_or_ok s.db s.queue s.nextId r with ⟨e, hc⟩ | hc
    · rw [sysStep_upload_err hc]
      exact ⟨⟨hq, hid, hqid, hqnd, hdnd, hpo⟩, List.chain'_singleton _, rfl,
        fun d hd => absurd hd (List.not_mem_nil d)⟩
    · rw [sysStep_upload_ok hc]
      have hnvid : (newVideo s.nextId r).id = s.nextId := rfl
      have hfresh : dbFind s.db (newVideo s.nextId r).id = none := by
        rw [hnvid]
        exact dbFind_none_of_lt s.db s.nextId hid
      have hpend : (newVideo s.nextId r).processing_status = "pending" := rfl
      have hallOk : ∀ v ∈ s.db ++ [newVideo s.nextId r], pathsOk v := by
        intro v hv
        rcases List.mem_append.mp hv with hv | hv
        · exact hpo v hv
        · rw [List.mem_singleton.mp hv]
          exact pathsOk_newVideo s.nextId r
      refine ⟨⟨?_, ?_, ?_, ?_, ?_, hallOk⟩, ?_, rfl, ?_⟩
      · intro j hj
        rcases List.mem_append.mp hj with hj | hj
        · obtain ⟨u, hu, _⟩ := find_of_statusOf_some (hq j hj)
          rw [statusOf_append_of_isSome _ hu]
          exact hq j hj
        · rw [List.mem_singleton.mp hj]
          exact statusOf_append_fresh _ hfresh
      · intro v hv
        rcases List.mem_append.mp hv with hv | hv
        · exact Nat.lt_succ_of_lt (hid v hv)
        · rw [List.mem_singleton.mp hv, hnvid]
          exact Nat.lt_succ_self _
      · intro j hj
        rcases List.mem_append.mp hj with hj | hj
        · exact Nat.lt_succ_of_lt (hqid j hj)
        · rw [List.mem_singleton.mp hj]
          exact Nat.lt_succ_self _
      · rw [List.nodup_append]
        refine ⟨hqnd, List.nodup_singleton _, ?_⟩
        intro a ha hb
        rw [List.mem_singleton.mp hb] at ha
        exact absurd (hqid _ ha) (Nat.lt_irrefl _)
      · unfold dbIds
        rw [List.map_append, List.nodup_append]
        refine ⟨hdnd, List.nodup_singleton _, ?_⟩
        intro a ha hb
        simp only [List.map_cons, List.map_nil, List.mem_singleton] at hb
        rw [hb, hnvid] at ha
        exact absurd (id_lt_of_mem_dbIds hid _ ha) (Nat.lt_irrefl _)
      · exact List.chain'_cons.mpr
          ⟨allowedStep_append s.db _ hfresh hpend, List.chain'_singleton _⟩
      · intro d hd
        rw [List.mem_singleton.mp hd]
        exact hallOk
  | work env =>
    cases hqe : s.queue with
    | nil =>
      rw [sysStep_work_nil hqe]
      exact ⟨⟨hq, hid, hqid, hqnd, hdnd, hpo⟩, List.chain'_singleton _, rfl,
        fun d hd => absurd hd (List.not_mem_nil d)⟩
    | cons id rest =>
      rw [hqe] at hq hqid hqnd
      rw [sysStep_work_cons hqe]
      have hsid : statusOf s.db id = some "pending" := hq id (List.mem_cons_self id rest)
      obtain ⟨u, hfu, hust⟩ := find_of_statusOf_some hsid
      have huid : u.id = id := dbFind_eq_some_id hfu
      have hidrest : id ∉ rest := (List.nodup_cons.mp hqnd).1
      have hnc : ∀ v ∈ s.db, v.id = id → v.processing_status ≠ "completed" := by
        intro v hv hvid
        rw [row_eq_of_mem_nodup hdnd hfu hv hvid, hust]
        decide
      have hdb1Ok : ∀ v ∈ dbSetStatus s.db id "processing", pathsOk v :=
        pathsOk_dbSetStatus s.db id "processing" (by decide) hpo hnc
      have hfind1 : dbFind (dbSetStatus s.db id "processing") id =
          some { u with processing_status := "processing" } :=
        dbFind_dbSetStatus_of_find "processing" hfu
      have hstep1 : allowedStep s.db (dbSetStatus s.db id "processing") := by
        apply allowedStep_setStatus
        intro u' hu'
        rw [hfu] at hu'
        rw [← Option.some.inj hu', hust]
        exact Or.inr (Or.inl ⟨rfl, rfl⟩)
      have hrest_pending : ∀ j ∈ rest, statusOf s.db j = some "pending" := by
        intro j hj
        exact hq j (List.mem_cons_of_mem id hj)
      have hrest_ne : ∀ j ∈ rest, j ≠ id := by
        intro j hj he
        exact hidrest (he ▸ hj)
      by_cases hsucc : (truthy u.original_video = true ∧ env.sourceExists = true ∧
          env.encodeOk "480p" = true ∧ env.encodeOk "720p" = true ∧
          env.encodeOk "1080p" = true ∧ env.thumbOk = true)
      · obtain ⟨ho, hs, h4, h7, h10, ht⟩ := hsucc
        have hrun := process_video_success env s.db id u hfu ho hs h4 h7 h10 ht
        rw [hrun]
        simp only [List.getLast?_cons_cons, List.getLast?_singleton, Option.getD_some]
        have hcid : (completedRec u).id = id := huid
        have hfinOk : ∀ v ∈ dbUpdate (dbSetStatus s.db id "processing")
            (completedRec u), pathsOk v :=
          pathsOk_dbUpdate _ _ (pathsOk_completedRec u) hdb1Ok
        have hstep2 : allowedStep (dbSetStatus s.db id "processing")
            (dbUpdate (dbSetStatus s.db id "processing") (completedRec u)) := by
          apply allowedStep_update
          intro u' hu'
          rw [hcid, hfind1] at hu'
          rw [← Option.some.inj hu']
          exact Or.inr (Or.inr ⟨rfl, Or.inl rfl⟩)
        refine ⟨⟨?_, ?_, ?_, (List.nodup_cons.mp hqnd).2, ?_, hfinOk⟩, ?_, trivial, ?_⟩
        · intro j hj
          rw [statusOf_update_other _ _ j (hcid ▸ hrest_ne j hj),
            statusOf_setStatus_other _ _ _ j (hrest_ne j hj)]
          exact hrest_pending j hj
        · intro v hv
          unfold dbUpdate dbSetStatus at hv
          rcases List.mem_map.mp hv with ⟨w1, hw1, rfl⟩
          rcases List.mem_map.mp hw1 with ⟨w0, hw0, rfl⟩
          rw [updFn_id, setStatusFn_id]
          exact hid w0 hw0
        · intro j hj
          exact hqid j (List.mem_cons_of_mem id hj)
        · rw [dbIds_dbUpdate, dbIds_dbSetStatus]
          exact hdnd
        · exact List.chain'_cons.mpr ⟨hstep1,
            List.chain'_cons.mpr ⟨hstep2, List.chain'_singleton _⟩⟩
        · intro d hd
          rcases List.mem_cons.mp hd with rfl | hd
          · exact hdb1Ok
          · rw [List.mem_singleton.mp hd]
            exact hfinOk
      · have hshape := process_video_fail_shape env s.db id u hfu hsucc
        rw [hshape]
        simp only [List.getLast?_cons_cons, List.getLast?_singleton, Option.getD_some]
        have hfailOk : ∀ v ∈ dbSetStatus s.db id "failed", pathsOk v :=
          pathsOk_dbSetStatus s.db id "failed" (by decide) hpo hnc
        have hstep2 : allowedStep (dbSetStatus s.db id "processing")
            (dbSetStatus s.db id "failed") := by
          rw [← dbSetStatus_dbSetStatus s.db id "processing" "failed"]
          apply allowedStep_setStatus
          intro u' hu'
          rw [hfind1] at hu'
          rw [← Option.some.inj hu']
          exact Or.inr (Or.inr ⟨rfl, Or.inr rfl⟩)
        refine ⟨⟨?_, ?_, ?_, (List.nodup_cons.mp hqnd).2, ?_, hfailOk⟩, ?_, trivial, ?_⟩
        · intro j hj
          rw [statusOf_setStatus_other _ _ _ j (hrest_ne j hj)]
          exact hrest_pending j hj
        · intro v hv
          unfold dbSetStatus at hv
          rcases List.mem_map.mp hv with ⟨w0, hw0, rfl⟩
          rw [setStatusFn_id]
          exact hid w0 hw0
        · intro j hj
          exact hqid j (List.mem_cons_of_mem id hj)
        · rw [dbIds_dbSetStatus]
          exact hdnd
        · exact List.chain'_cons.mpr ⟨hstep1,
            List.chain'_cons.mpr ⟨hstep2, List.chain'_singleton _⟩⟩
        · intro d hd
          rcases List.mem_cons.mp hd with rfl | hd
          · exact hdb1Ok
          · rw [List.mem_singleton.mp hd]
            exact hfailOk

theorem chain_concat {α : Type} {R : α → α → Prop} (a : α) (l1 l2 : List α)
    (b : α) (h1 : List.Chain' R (a :: l1)) (hl : (a :: l1).getLast? = some b)
    (h2 : List.Chain' R (b :: l2)) :
    List.Chain' R (a :: (l1 ++ l2))
      ∧ (a :: (l1 ++ l2)).getLast? = (b :: l2).getLast? := by
  induction l1 generalizing a with
  | nil =>
    have hab : a = b := Option.some.inj (by simpa using hl)
    subst hab
    exact ⟨h2, rfl⟩
  | cons x l1 ih =>
    have h1' := List.chain'_cons.mp h1
    have hl' : (x :: l1).getLast? = some b := by
      rw [← List.getLast?_cons_cons]
      exact hl
    obtain ⟨hc, hg⟩ := ih x h1'.2 hl'
    constructor
    · exact List.chain'_cons.mpr ⟨h1'.1, hc⟩
    · rw [show a :: (x :: l1 ++ l2) = a :: x :: (l1 ++ l2) from rfl,
        List.getLast?_cons_cons]
      exact hg

theorem runOps_sound (ops : List Op) : ∀ (s : SysState), SysInv s →
    SysInv (runOps s ops).1
    ∧ List.Chain' allowedStep (s.db :: (runOps s ops).2)
    ∧ (s.db :: (runOps s ops).2).getLast? = some (runOps s ops).1.db
    ∧ (∀ d ∈ (runOps s ops).2, ∀ v ∈ d, pathsOk v) := by
  induction ops with
  | nil =>
    intro s h
    exact ⟨h, List.chain'_singleton _, rfl,
      fun d hd => absurd hd (List.not_mem_nil d)⟩
  | cons op rest ih =>
    intro s h
    obtain ⟨h1, hchain1, hlast1, hpaths1⟩ := sysStep_sound s op h
    obtain ⟨h2, hchain2, hlast2, hpaths2⟩ := ih (sysStep s op).1 h1
    have hglue := chain_concat s.db (sysStep s op).2
      (runOps (sysStep s op).1 rest).2 (sysStep s op).1.db hchain1 hlast1 hchain2
    simp only [runOps]
    refine ⟨h2, hglue.1, ?_, ?_⟩
    · rw [hglue.2]
      exact hlast2
    · intro d hd
      rcases List.mem_append.mp hd with hd | hd
      · exact hpaths1 d hd
      · exact hpaths2 d hd

theorem initState_inv : SysInv initState := by
  refine ⟨?_, ?_, ?_, List.nodup_nil, List.nodup_nil, ?_⟩ <;>
    intro x hx <;> cases hx

/- ## Delivery-layer lemmas -/

theorem getCompleted_some_props {db : List Video} {mid : Nat} {v : Video}
    (hf : getCompleted db mid = some v) :
    v ∈ db ∧ v.id = mid ∧ v.processing_status = "completed" := by
  unfold getCompleted at hf
  have hmem := List.mem_of_find?_eq_some hf
  have hp := List.find?_some hf
  simp only [Bool.and_eq_true, beq_iff_eq] at hp
  exact ⟨hmem, hp.1, hp.2⟩

theorem getCompleted_of_mem {db : List Video} {v : Video}
    (h : (dbIds db).Nodup) (hmem : v ∈ db)
    (hst : v.processing_status = "completed") :
    getCompleted db v.id = some v := by
  induction db with
  | nil => cases hmem
  | cons w t ih =>
    unfold dbIds at h
    simp only [List.map_cons, List.nodup_cons] at h
    rcases List.mem_cons.mp hmem with rfl | hmem'
    · unfold getCompleted
      simp [List.find?, hst]
    · have hne : w.id ≠ v.id := by
        intro he
        exact h.1 (he ▸ List.mem_map.mpr ⟨v, hmem', rfl⟩)
      have hpw : (w.id == v.id && w.processing_status == "completed") = false := by
        simp [hne]
      unfold getCompleted at *
      simp only [List.find?, hpw]
      exact ih h.2 hmem'

theorem res_mem_of_truthy {v : Video} {res : String}
    (h : truthy (resolutionMap v res) = true) : res ∈ renditions := by
  unfold resolutionMap at h
  by_cases h4 : (res == "480p") = true
  · rw [eq_of_beq h4]
    decide
  · rw [if_neg (by simpa using h4)] at h
    by_cases h7 : (res == "720p") = true
    · rw [eq_of_beq h7]
      decide
    · rw [if_neg (by simpa using h7)] at h
      by_cases h10 : (res == "1080p") = true
      · rw [eq_of_beq h10]
        decide
      · rw [if_neg (by simpa using h10)] at h
        cases h

/-- C1: for every `get_manifest`/`get_segment` request, file bytes are
returned (HTTP 200) if and only if the asset exists with status `completed`,
the rendition is one of `480p`/`720p`/`1080p`, the corresponding rendition
path is recorded (non-empty) on the asset, and the target file exists on
disk; in every other case the response is `NotFound`. -/
theorem C1_delivery_iff (fs : List (List String)) (db : List Video)
    (mid : Nat) (res seg : String) (hnd : (dbIds db).Nodup) :
    ((∃ f, video_manifest fs db mid res = .ok f) ↔
      ∃ v, v ∈ db ∧ v.id = mid ∧ v.processing_status = "completed" ∧
        res ∈ renditions ∧ truthy (resolutionMap v res) = true ∧
        osExists fs (pathJoin3 MEDIA_ROOT ((resolutionMap v res).getD "")
          "index.m3u8") = true)
    ∧ ((∃ f, video_segment fs db mid res seg = .ok f) ↔
      ∃ v, v ∈ db ∧ v.id = mid ∧ v.processing_status = "completed" ∧
        res ∈ renditions ∧ truthy (resolutionMap v res) = true ∧
        osExists fs (pathJoin3 MEDIA_ROOT ((resolutionMap v res).getD "")
          seg) = true)
    ∧ ((¬∃ f, video_manifest fs db mid res = .ok f) →
        ∃ d, video_manifest fs db mid res = .notFound d)
    ∧ ((¬∃ f, video_segment fs db mid res seg = .ok f) →
        ∃ d, video_segment fs db mid res seg = .notFound d) := by
  refine ⟨?_, ?_, ?_, ?_⟩
  · constructor
    · rintro ⟨f, hok⟩
      unfold video_manifest at hok
      cases hg : getCompleted db mid with
      | none => rw [hg] at hok; cases hok
      | some video =>
        rw [hg] at hok
        obtain ⟨hmem, hvid, hvst⟩ := getCompleted_some_props hg
        by_cases htr : truthy (resolutionMap video res) = true
        · simp only [htr, Bool.not_true, Bool.false_eq_true, if_false] at hok
          by_cases hex : osExists fs (pathJoin3 MEDIA_ROOT
              ((resolutionMap video res).getD "") "index.m3u8") = true
          · exact ⟨video, hmem, hvid, hvst, res_mem_of_truthy htr, htr, hex⟩
          · rw [if_neg hex] at hok
            cases hok
        · have hfalse : truthy (resolutionMap video res) = false := by
            cases hx : truthy (resolutionMap video res)
            · rfl
            · exact absurd hx htr
          simp only [hfalse, Bool.not_false, if_true] at hok
          cases hok
    · rintro ⟨v, hmem, hvid, hvst, _, htr, hex⟩
      have hg : getCompleted db mid = some v := hvid ▸ getCompleted_of_mem hnd hmem hvst
      refine ⟨resolvePath (pathJoin3 MEDIA_ROOT ((resolutionMap v res).getD "")
        "index.m3u8"), ?_⟩
      unfold video_manifest
      rw [hg]
      simp only [htr, Bool.not_true, Bool.false_eq_true, if_false]
      rw [if_pos hex]
  · constructor
    · rintro ⟨f, hok⟩
      unfold video_segment at hok
      cases hg : getCompleted db mid with
      | none => rw [hg] at hok; cases hok
      | some video =>
        rw [hg] at hok
        obtain ⟨hmem, hvid, hvst⟩ := getCompleted_some_props hg
        by_cases htr : truthy (resolutionMap video res) = true
        · simp only [htr, Bool.not_true, Bool.false_eq_true, if_false] at hok
          by_cases hex : osExists fs (pathJoin3 MEDIA_ROOT
              ((resolutionMap video res).getD "") seg) = true
          · exact ⟨video, hmem, hvid, hvst, res_mem_of_truthy htr, htr, hex⟩
          · rw [if_neg hex] at hok
            cases hok
        · have hfalse : truthy (resolutionMap video res) = false := by
            cases hx : truthy (resolutionMap video res)
            · rfl
            · exact absurd hx htr
          simp only [hfalse, Bool.not_false, if_true] at hok
          cases hok
    · rintro ⟨v, hmem, hvid, hvst, _, htr, hex⟩
      have hg : getCompleted db mid = some v := hvid ▸ getCompleted_of_mem hnd hmem hvst
      refine ⟨resolvePath (pathJoin3 MEDIA_ROOT ((resolutionMap v res).getD "")
        seg), ?_⟩
      unfold video_segment
      rw [hg]
      simp only [htr, Bool.not_true, Bool.false_eq_true, if_false]
      rw [if_pos hex]
  · intro hno
    cases hr : video_manifest fs db mid res with
    | ok f => exact absurd ⟨f, hr⟩ hno
    | notFound d => exact ⟨d, rfl⟩
  · intro hno
    cases hr : video_segment fs db mid res seg with
    | ok f => exact absurd ⟨f, hr⟩ hno
    | notFound d => exact ⟨d, rfl⟩

/- ## Concrete instances used by witnesses and counterexamples -/

/-- A valid 5 MB `.mp4` upload request titled `"Demo"`. -/
def demoReq : UploadReq :=
  { title := "Demo"
    category := "Action"
    description := "a demo video"
    filename := "demo.mp4"
    size := 5242880
    thumbFilename := "demo.jpg"
    uuidHex := "ab12cd34" }

/-- An environment where every worker step succeeds, each encode emitting two
segments. -/
def demoEnv : WorkerEnv :=
  { sourceExists := true, encodeOk := fun _ => true, thumbOk := true, segCount := 2 }

/-- A completed asset with all rendition paths recorded. -/
def c1video : Video :=
  { id := 1
    title := "Movie"
    category := "Drama"
    description := "d"
    processing_status := "completed"
    original_video := some "videos/original/1/movie.mp4"
    thumbnail_url := "videos/thumbnails/1.jpg"
    hls_480p_path := some "videos/processed/1/480p"
    hls_720p_path := some "videos/processed/1/720p"
    hls_1080p_path := some "videos/processed/1/1080p" }

/-- A disk holding exactly the 480p manifest of asset 1. -/
def c1fs : List (List String) :=
  [["media", "videos", "processed", "1", "480p", "index.m3u8"]]

theorem C1_delivery_iff_witness :
    (dbIds [c1video]).Nodup
    ∧ (∃ f, video_manifest c1fs [c1video] 1 "480p" = .ok f)
    ∧ video_manifest c1fs [c1video] 2 "480p" =
        .notFound "Video not found or not yet processed"
    ∧ video_manifest c1fs [c1video] 1 "4k" =
        .notFound "Resolution not available"
    ∧ video_segment c1fs [c1video] 1 "480p" "099.ts" =
        .notFound "Segment file not found" :=
  ⟨by decide,
    ((C1_delivery_iff c1fs [c1video] 1 "480p" "000.ts" (by decide)).1).mpr
      ⟨c1video, by decide, by decide, by decide, by decide, by decide, by decide⟩,
    by decide, by decide, by decide⟩

/-- C2: in every database snapshot any reader can observe, a `completed` asset
carries all three rendition paths and a non-empty thumbnail path, and a
`failed` asset is missing at least one rendition path; moreover the
transition to `completed` together with all paths is one single persisted
write (the worker emits exactly two snapshots: the `processing` one and the
complete `completed` record). -/
theorem C2_completed_invariant :
    (∀ (ops : List Op) (snap : List Video) (v : Video),
      snap ∈ history ops → v ∈ snap →
      (v.processing_status = "completed" →
        truthy v.hls_480p_path = true ∧ truthy v.hls_720p_path = true ∧
          truthy v.hls_1080p_path = true ∧ v.thumbnail_url ≠ "")
      ∧ (v.processing_status = "failed" →
        ¬(truthy v.hls_480p_path = true ∧ truthy v.hls_720p_path = true ∧
            truthy v.hls_1080p_path = true)))
    ∧ (∀ (env : WorkerEnv) (db : List Video) (id : Nat) (v : Video),
        dbFind db id = some v → truthy v.original_video = true →
        env.sourceExists = true → env.encodeOk "480p" = true →
        env.encodeOk "720p" = true → env.encodeOk "1080p" = true →
        env.thumbOk = true →
        (process_video env db id).snapshots =
          [dbSetStatus db id "processing",
            dbUpdate (dbSetStatus db id "processing") (completedRec v)]) := by
  constructor
  · intro ops snap v hsnap hv
    unfold history at hsnap
    rcases List.mem_cons.mp hsnap with rfl | hsnap'
    · cases hv
    · have hpo := (runOps_sound ops initState initState_inv).2.2.2 snap hsnap' v hv
      refine ⟨fun hc => ⟨(hpo.1 hc).1, (hpo.1 hc).2.1, (hpo.1 hc).2.2.1,
        (hpo.1 hc).2.2.2⟩, fun hfail => ?_⟩
      have hnone := hpo.2 (by rw [hfail]; decide)
      rintro ⟨h4, _, _⟩
      rw [hnone.1] at h4
      cases h4
  · intro env db id v hf ho hs h4 h7 h10 ht
    rw [process_video_success env db id v hf ho hs h4 h7 h10 ht]

theorem C2_completed_invariant_witness :
    [completedRec (newVideo 1 demoReq)] ∈
      history [Op.upload demoReq, Op.work demoEnv]
    ∧ (truthy (completedRec (newVideo 1 demoReq)).hls_480p_path = true
      ∧ truthy (completedRec (newVideo 1 demoReq)).hls_720p_path = true
      ∧ truthy (completedRec (newVideo 1 demoReq)).hls_1080p_path = true
      ∧ (completedRec (newVideo 1 demoReq)).thumbnail_url ≠ "") :=
  ⟨by decide,
    (C2_completed_invariant.1 [Op.upload demoReq, Op.work demoEnv]
      [completedRec (newVideo 1 demoReq)] (completedRec (newVideo 1 demoReq))
      (by decide) (by decide)).1 rfl⟩

theorem process_video_attempted (env : WorkerEnv) (db : List Video) (id : Nat)
    (v : Video) (hf : dbFind db id = some v)
    (ho : truthy v.original_video = true) :
    (process_video env db id).attempted =
      if env.sourceExists = false then []
      else if env.encodeOk "480p" = false then ["480p"]
      else if env.encodeOk "720p" = false then ["480p", "720p"]
      else ["480p", "720p", "1080p"] := by
  unfold process_video
  rw [hf]
  dsimp only
  cases hsrc : env.sourceExists with
  | false => simp [ho, hsrc]
  | true =>
    cases h0 : env.encodeOk "480p" with
    | false => simp [ho, hsrc, h0, renditions, encodeAll, setRendition]
    | true =>
      cases h1 : env.encodeOk "720p" with
      | false => simp [ho, hsrc, h0, h1, renditions, encodeAll, setRendition]
      | true =>
        cases h2 : env.encodeOk "1080p" with
        | false => simp [ho, hsrc, h0, h1, h2, renditions, encodeAll, setRendition]
        | true =>
          cases hth : env.thumbOk with
          | false =>
            rw [encodeAll_success env { v with processing_status := "processing" } h0 h1 h2]
            simp [ho, hsrc, hth, renditions]
          | true =>
            rw [encodeAll_success env { v with processing_status := "processing" } h0 h1 h2]
            simp [ho, hsrc, hth, renditions]

/-- C3 (amended): when any step of a worker run raises (missing source,
encoder failure on any rendition, thumbnail failure), the worker persists
status `failed` and stops without attempting the remaining renditions, and
the exception is absorbed (the run still ends in a persisted `failed` row);
however only the status field is persisted — partial rendition paths recorded
in memory are NOT persisted. -/
theorem C3_failure_behavior :
    ∀ (env : WorkerEnv) (db : List Video) (id : Nat) (v : Video),
      dbFind db id = some v → truthy v.original_video = true →
      ((env.sourceExists = false →
          (process_video env db id).snapshots =
            [dbSetStatus db id "processing", dbSetStatus db id "failed"]
          ∧ (process_video env db id).attempted = []
          ∧ dbFind (dbSetStatus db id "failed") id =
              some { v with processing_status := "failed" })
      ∧ (env.sourceExists = true → env.encodeOk "480p" = false →
          (process_video env db id).snapshots =
            [dbSetStatus db id "processing", dbSetStatus db id "failed"]
          ∧ (process_video env db id).attempted = ["480p"]
          ∧ dbFind (dbSetStatus db id "failed") id =
              some { v with processing_status := "failed" })
      ∧ (env.sourceExists = true → env.encodeOk "480p" = true →
          env.encodeOk "720p" = false →
          (process_video env db id).snapshots =
            [dbSetStatus db id "processing", dbSetStatus db id "failed"]
          ∧ (process_video env db id).attempted = ["480p", "720p"]
          ∧ dbFind (dbSetStatus db id "failed") id =
              some { v with processing_status := "failed" })
      ∧ (env.sourceExists = true → env.encodeOk "480p" = true →
          env.encodeOk "720p" = true → env.encodeOk "1080p" = false →
          (process_video env db id).snapshots =
            [dbSetStatus db id "processing", dbSetStatus db id "failed"]
          ∧ (process_video env db id).attempted = ["480p", "720p", "1080p"]
          ∧ dbFind (dbSetStatus db id "failed") id =
              some { v with processing_status := "failed" })
      ∧ (env.sourceExists = true → env.encodeOk "480p" = true →
          env.encodeOk "720p" = true → env.encodeOk "1080p" = true →
          env.thumbOk = false →
          (process_video env db id).snapshots =
            [dbSetStatus db id "processing", dbSetStatus db id "failed"]
          ∧ (process_video env db id).attempted = renditions
          ∧ dbFind (dbSetStatus db id "failed") id =
              some { v with processing_status := "failed" })) := by
  intro env db id v hf ho
  refine ⟨?_, ?_, ?_, ?_, ?_⟩
  · intro hsrc
    refine ⟨process_video_fail_shape env db id v hf ?_, ?_,
      dbFind_dbSetStatus_of_find "failed" hf⟩
    · rintro ⟨_, hs, _⟩
      rw [hs] at hsrc
      cases hsrc
    · rw [process_video_attempted env db id v hf ho]
      simp [hsrc]
  · intro hsrc h0
    refine ⟨process_video_fail_shape env db id v hf ?_, ?_,
      dbFind_dbSetStatus_of_find "failed" hf⟩
    · rintro ⟨_, _, h4, _⟩
      rw [h4] at h0
      cases h0
    · rw [process_video_attempted env db id v hf ho]
      simp [hsrc, h0]
  · intro hsrc h0 h1
    refine ⟨process_video_fail_shape env db id v hf ?_, ?_,
      dbFind_dbSetStatus_of_find "failed" hf⟩
    · rintro ⟨_, _, _, h7, _⟩
      rw [h7] at h1
      cases h1
    · rw [process_video_attempted env db id v hf ho]
      simp [hsrc, h0, h1]
  · intro hsrc h0 h1 h2
    refine ⟨process_video_fail_shape env db id v hf ?_, ?_,
      dbFind_dbSetStatus_of_find "failed" hf⟩
    · rintro ⟨_, _, _, _, h10, _⟩
      rw [h10] at h2
      cases h2
    · rw [process_video_attempted env db id v hf ho]
      simp [hsrc, h0, h1, h2]
  · intro hsrc h0 h1 h2 hth
    refine ⟨process_video_fail_shape env db id v hf ?_, ?_,
      dbFind_dbSetStatus_of_find "failed" hf⟩
    · rintro ⟨_, _, _, _, _, ht⟩
      rw [ht] at hth
      cases hth
    · rw [process_video_attempted env db id v hf ho]
      simp [hsrc, h0, h1, h2, renditions]

/-- An encoder that succeeds on 480p and fails on every later rendition. -/
def c3env : WorkerEnv :=
  { sourceExists := true, encodeOk := fun r => r == "480p", thumbOk := true,
    segCount := 1 }

/-- A pending asset about to be processed by `c3env`. -/
def c3video : Video :=
  { id := 1
    title := "Clip"
    category := "Action"
    description := "d"
    processing_status := "pending"
    original_video := some "videos/original/1/clip.mp4"
    thumbnail_url := "videos/thumbnails/u1/clip.jpg"
    hls_480p_path := none
    hls_720p_path := none
    hls_1080p_path := none }

/-- C3 counterexample: on a run where 480p succeeds and 720p fails, the
in-memory record had the 480p rendition path recorded at the moment of
failure, yet the final persisted row (`failed`) carries no rendition path:
the worker does not persist partial rendition paths. -/
theorem C3_counterexample :
    (encodeAll c3env { c3video with processing_status := "processing" }
        renditions).1.hls_480p_path = some "videos/processed/1/480p"
    ∧ (process_video c3env [c3video] 1).snapshots.getLast? =
        some [{ c3video with processing_status := "failed" }]
    ∧ ({ c3video with processing_status := "failed" }).hls_480p_path = none :=
  ⟨by decide, by decide, by decide⟩

theorem C3_failure_behavior_witness :
    dbFind [c3video] 1 = some c3video
    ∧ truthy c3video.original_video = true
    ∧ (process_video c3env [c3video] 1).attempted = ["480p", "720p"] :=
  ⟨by decide, by decide,
    ((C3_failure_behavior c3env [c3video] 1 c3video (by decide) (by decide)).2.2.1
      (by decide) (by decide) (by decide)).2.1⟩

/-- C4: every created asset starts in `pending`; a worker run on an existing
asset persists `processing` first (before any transcoding outcome matters)
and only then `completed` or `failed`; over any sequence of pipeline
operations, every adjacent pair of observable snapshots respects the
lifecycle state machine — in particular no asset ever moves from `pending`
directly to `completed`/`failed`, and `completed`/`failed` are terminal. -/
theorem C4_lifecycle :
    (∀ ops : List Op, List.Chain' allowedStep (history ops))
    ∧ (∀ (db : List Video) (q : List Nat) (n : Nat) (r : UploadReq)
        (db' : List Video) (q' : List Nat) (v : Video),
        create db q n r = .ok (db', q', v) → v.processing_status = "pending")
    ∧ (∀ (env : WorkerEnv) (db : List Video) (id : Nat),
        (process_video env db id).snapshots.head? =
          (dbFind db id).map (fun _ => dbSetStatus db id "processing")) := by
  refine ⟨?_, ?_, ?_⟩
  · intro ops
    unfold history
    exact (runOps_sound ops initState initState_inv).2.1
  · intro db q n r db' q' v hc
    rcases create_error_or_ok db q n r with ⟨e, he⟩ | he
    · rw [he] at hc
      cases hc
    · rw [he] at hc
      have hv : v = newVideo n r := congrArg (fun x => x.2.2) (Except.ok.inj hc.symm)
      rw [hv]
      rfl
  · intro env db id
    cases hfs : dbFind db id with
    | none =>
      rw [process_video_none env db id hfs]
      rfl
    | some u =>
      by_cases hsucc : (truthy u.original_video = true ∧ env.sourceExists = true ∧
          env.encodeOk "480p" = true ∧ env.encodeOk "720p" = true ∧
          env.encodeOk "1080p" = true ∧ env.thumbOk = true)
      · obtain ⟨ho, hs, h4, h7, h10, ht⟩ := hsucc
        rw [process_video_success env db id u hfs ho hs h4 h7 h10 ht]
        rfl
      · have hshape := process_video_fail_shape env db id u hfs hsucc
        rw [hshape]
        rfl

theorem C4_lifecycle_witness :
    create [] [] 1 demoReq = .ok ([newVideo 1 demoReq], [1], newVideo 1 demoReq)
    ∧ (newVideo 1 demoReq).processing_status = "pending" :=
  ⟨by rfl,
    C4_lifecycle.2.1 [] [] 1 demoReq [newVideo 1 demoReq] [1]
      (newVideo 1 demoReq) (by rfl)⟩

/-- C5: `create` fails with `DuplicateTitle` exactly when another asset has
the same title ignoring case; it fails with `InvalidFile` (ValidationError)
exactly when the extension is not in {mp4, avi, mov, mkv} or the size
strictly exceeds 10.5 MiB = 11010048 bytes; otherwise the asset is created
(appended in status `pending` with one job enqueued); a rejected upload
leaves the persistent state untouched — no row, no job. -/
theorem C5_create_validation :
    (∀ (db : List Video) (q : List Nat) (n : Nat) (r : UploadReq),
      (create db q n r = .error .DuplicateTitle ↔ titleTaken db r.title = true)
      ∧ (create db q n r = .error .InvalidFile ↔
          (titleTaken db r.title = false ∧
            (r.size > max_size ∨ fileExt r.filename ∉ allowed_extensions)))
      ∧ (create db q n r = .ok (db ++ [newVideo n r], q ++ [n], newVideo n r) ↔
          (titleTaken db r.title = false ∧ r.size ≤ max_size ∧
            fileExt r.filename ∈ allowed_extensions)))
    ∧ (∀ (s : SysState) (r : UploadReq) (e : CreateError),
        create s.db s.queue s.nextId r = .error e →
        sysStep s (.upload r) = (s, [])) := by
  constructor
  · intro db q n r
    cases h1 : titleTaken db r.title with
    | true =>
      have hc : create db q n r = .error .DuplicateTitle := by
        unfold create
        simp [h1]
      refine ⟨?_, ?_, ?_⟩
      · rw [hc]
        simp [h1]
      · rw [hc]
        constructor
        · intro he
          exact absurd (Except.error.inj he) (by decide)
        · rintro ⟨hf, _⟩
          cases hf
      · rw [hc]
        constructor
        · intro he
          exact Except.noConfusion he
        · rintro ⟨hf, _⟩
          cases hf
    | false =>
      cases hv : validate_video_size r.size with
      | false =>
        have hc : create db q n r = .error .InvalidFile := by
          unfold create
          simp [h1, hv]
        have hsz : r.size > max_size := by
          unfold validate_video_size at hv
          simpa using hv
        refine ⟨?_, ?_, ?_⟩
        · rw [hc]
          constructor
          · intro he
            exact absurd (Except.error.inj he) (by decide)
          · intro hT
            cases hT
        · rw [hc]
          simp [h1, hsz]
        · rw [hc]
          constructor
          · intro he
            exact Except.noConfusion he
          · rintro ⟨_, hle, _⟩
            omega
      | true =>
        have hle : r.size ≤ max_size := by
          unfold validate_video_size at hv
          simpa using hv
        by_cases h3 : fileExt r.filename ∈ allowed_extensions
        · have hc : create db q n r =
              .ok (db ++ [newVideo n r], q ++ [n], newVideo n r) := by
            unfold create
            simp [h1, hv, h3]
          refine ⟨?_, ?_, ?_⟩
          · rw [hc]
            constructor
            · intro he
              exact Except.noConfusion he
            · intro hT
              cases hT
          · rw [hc]
            constructor
            · intro he
              exact Except.noConfusion he
            · rintro ⟨_, hbad⟩
              rcases hbad with hsz | hext
              · omega
              · exact absurd h3 hext
          · rw [hc]
            simp [h1, hle, h3]
        · have hc : create db q n r = .error .InvalidFile := by
            unfold create
            simp [h1, hv, h3]
          refine ⟨?_, ?_, ?_⟩
          · rw [hc]
            constructor
            · intro he
              exact absurd (Except.error.inj he) (by decide)
            · intro hT
              cases hT
          · rw [hc]
            simp [h1, h3]
          · rw [hc]
            constructor
            · intro he
              exact Except.noConfusion he
            · rintro ⟨_, _, hext⟩
              exact absurd hext h3
  · intro s r e hce
    exact sysStep_upload_err hce

/-- An existing asset titled `"Foo"`. -/
def c5video : Video := { newVideo 1 demoReq with title := "Foo" }

/-- An upload request reusing the title with different case. -/
def c5dupReq : UploadReq := { demoReq with title := "foo" }

/-- An upload request with a disallowed `.exe` extension. -/
def c5exeReq : UploadReq := { demoReq with filename := "virus.exe" }

/-- An upload request whose filename is the leading-dot-only `".mp4"`:
`Path(".mp4").suffix` is empty, so the validator rejects it. -/
def c5dotReq : UploadReq := { demoReq with filename := ".mp4" }

theorem C5_create_validation_witness :
    create [c5video] [] 2 c5dupReq = .error .DuplicateTitle
    ∧ create [] [] 1 c5exeReq = .error .InvalidFile
    ∧ create [] [] 1 c5dotReq = .error .InvalidFile
    ∧ create [] [] 1 demoReq =
        .ok ([newVideo 1 demoReq], [1], newVideo 1 demoReq) :=
  ⟨(C5_create_validation.1 [c5video] [] 2 c5dupReq).1.mpr (by decide),
    ((C5_create_validation.1 [] [] 1 c5exeReq).2.1).mpr (by decide),
    ((C5_create_validation.1 [] [] 1 c5dotReq).2.1).mpr (by decide),
    ((C5_create_validation.1 [] [] 1 demoReq).2.2).mpr (by decide)⟩

/-- C6: `Video.save` on a new record with a source file first commits the row
and only then enqueues exactly one job keyed by the new asset id; at the
`create` level, the job id appended to the queue is the id of a row already
present in the committed database the worker will read. -/
theorem C6_enqueue_after_persist :
    (∀ newId : Nat,
      videoSaveEvents none newId true =
        [SaveEvent.persist newId, SaveEvent.enqueue newId])
    ∧ (∀ (db : List Video) (q : List Nat) (n : Nat) (r : UploadReq)
        (db' : List Video) (q' : List Nat) (v : Video),
        create db q n r = .ok (db', q', v) →
        q' = q ++ [v.id] ∧ v ∈ db') := by
  constructor
  · intro newId
    rfl
  · intro db q n r db' q' v hc
    rcases create_error_or_ok db q n r with ⟨e, he⟩ | he
    · rw [he] at hc
      cases hc
    · rw [he] at hc
      have htriple := Except.ok.inj hc
      obtain ⟨h1, h2, h3⟩ : db ++ [newVideo n r] = db' ∧ q ++ [n] = q' ∧
          newVideo n r = v :=
        ⟨congrArg (fun x => x.1) htriple, congrArg (fun x => x.2.1) htriple,
          congrArg (fun x => x.2.2) htriple⟩
      subst h1
      subst h2
      subst h3
      exact ⟨rfl, List.mem_append.mpr (Or.inr (List.mem_singleton.mpr rfl))⟩

theorem C6_enqueue_after_persist_witness :
    create [] [] 1 demoReq =
      .ok ([newVideo 1 demoReq], [1], newVideo 1 demoReq)
    ∧ ([1] = ([] : List Nat) ++ [(newVideo 1 demoReq).id]
      ∧ newVideo 1 demoReq ∈ [newVideo 1 demoReq]) :=
  ⟨by rfl,
    C6_enqueue_after_persist.2 [] [] 1 demoReq [newVideo 1 demoReq] [1]
      (newVideo 1 demoReq) (by rfl)⟩

/-- C10: saving an already-persisted record (primary key assigned) never
enqueues — the save emits only the persist action; consequently a worker pass
never grows the queue: its resulting queue is the tail of the previous one. -/
theorem C10_no_reenqueue :
    (∀ (i newId : Nat) (hasFile : Bool),
      videoSaveEvents (some i) newId hasFile = [SaveEvent.persist i])
    ∧ (∀ (s : SysState) (env : WorkerEnv),
        (sysStep s (.work env)).1.queue = s.queue.tail) := by
  constructor
  · intro i newId hasFile
    rfl
  · intro s env
    cases hqe : s.queue with
    | nil =>
      rw [sysStep_work_nil hqe, hqe]
      rfl
    | cons i rest =>
      rw [sysStep_work_cons hqe]
      rfl

theorem dbFind_dbUpdate_self {db : List Video} {v2 u : Video} {j : Nat}
    (hj : v2.id = j) (hf : dbFind db j = some u) :
    dbFind (dbUpdate db v2) j = some v2 := by
  unfold dbUpdate
  rw [dbFind_map_idpres _ (updFn_id v2), hf]
  have huj : u.id = v2.id := (dbFind_eq_some_id hf).trans hj.symm
  simp [updFn, huj]

theorem dbUpdate_setStatus_dbUpdate (db : List Video) (v2 : Video) (j : Nat)
    (st : String) (hj : v2.id = j) :
    dbUpdate (dbSetStatus (dbUpdate db v2) j st) v2 = dbUpdate db v2 := by
  unfold dbUpdate dbSetStatus
  rw [List.map_map, List.map_map]
  apply List.map_congr_left
  intro w _
  by_cases h : w.id = j
  · simp [updFn, setStatusFn, h, hj]
  · simp [updFn, setStatusFn, h, hj]

theorem finalDb_success_eq (env : WorkerEnv) (db : List Video) (id : Nat)
    (v : Video) (hf : dbFind db id = some v)
    (ho : truthy v.original_video = true) (hs : env.sourceExists = true)
    (h4 : env.encodeOk "480p" = true) (h7 : env.encodeOk "720p" = true)
    (h10 : env.encodeOk "1080p" = true) (ht : env.thumbOk = true) :
    finalDb env db id = dbUpdate (dbSetStatus db id "processing")
      (completedRec v) := by
  unfold finalDb
  rw [process_video_success env db id v hf ho hs h4 h7 h10 ht]
  rfl

/-- C8: output locations are deterministic functions of the asset id (and the
rendition name) alone; a worker re-run on the same asset writes to exactly
the same paths (overwriting rather than accumulating) and leaves the
persisted asset record identical to a single run. -/
theorem C8_idempotent :
    ∀ (env : WorkerEnv) (db : List Video) (id : Nat) (v : Video),
      dbFind db id = some v → truthy v.original_video = true →
      env.sourceExists = true → env.encodeOk "480p" = true →
      env.encodeOk "720p" = true → env.encodeOk "1080p" = true →
      env.thumbOk = true →
      (process_video env db id).writes = canonicalWrites env id
      ∧ (process_video env (finalDb env db id) id).writes = canonicalWrites env id
      ∧ finalDb env (finalDb env db id) id = finalDb env db id := by
  intro env db id v hf ho hs h4 h7 h10 ht
  have hvid : v.id = id := dbFind_eq_some_id hf
  have hcid : (completedRec v).id = id := hvid
  have hrun := process_video_success env db id v hf ho hs h4 h7 h10 ht
  have hfin := finalDb_success_eq env db id v hf ho hs h4 h7 h10 ht
  have hf1 : dbFind (dbSetStatus db id "processing") id =
      some { v with processing_status := "processing" } :=
    dbFind_dbSetStatus_of_find "processing" hf
  have hf2 : dbFind (finalDb env db id) id = some (completedRec v) := by
    rw [hfin]
    exact dbFind_dbUpdate_self hcid hf1
  have ho2 : truthy (completedRec v).original_video = true := ho
  have hrun2 := process_video_success env (finalDb env db id) id
    (completedRec v) hf2 ho2 hs h4 h7 h10 ht
  have hfin2 := finalDb_success_eq env (finalDb env db id) id
    (completedRec v) hf2 ho2 hs h4 h7 h10 ht
  refine ⟨?_, ?_, ?_⟩
  · rw [hrun]
    show canonicalWrites env v.id = canonicalWrites env id
    rw [hvid]
  · rw [hrun2]
    show canonicalWrites env (completedRec v).id = canonicalWrites env id
    rw [hcid]
  · rw [hfin2, hfin]
    have hcc : completedRec (completedRec v) = completedRec v := rfl
    rw [hcc]
    exact dbUpdate_setStatus_dbUpdate (dbSetStatus db id "processing")
      (completedRec v) id "processing" hcid

theorem C8_idempotent_witness :
    dbFind [c3video] 1 = some c3video
    ∧ finalDb demoEnv (finalDb demoEnv [c3video] 1) 1 =
        finalDb demoEnv [c3video] 1 :=
  ⟨by decide,
    (C8_idempotent demoEnv [c3video] 1 c3video (by decide) (by decide)
      (by decide) (by decide) (by decide) (by decide) (by decide)).2.2⟩

/-- C9 (amended): the persisted layout is `videos/original/None/<filename>`
for the upload — `upload_to` runs before the primary key is assigned, so the
id segment renders as the literal `None`, not the assigned id —
`videos/processed/<id>/<rendition>/` holding `index.m3u8` and zero-padded
numbered `.ts` segments for each rendition, and `videos/thumbnails/<id>.jpg`
for the thumbnail; a successful worker run writes exactly those paths and
records them on the completed row. -/
theorem C9_storage_layout :
    (∀ (i : Option Nat) (filename : String),
      video_upload_path i filename =
        "videos/original/"
          ++ (match i with | some n => toString n | none => "None")
          ++ "/" ++ filename)
    ∧ (∀ (db : List Video) (q : List Nat) (n : Nat) (r : UploadReq)
        (db' : List Video) (q' : List Nat) (v : Video),
        create db q n r = .ok (db', q', v) →
        v.original_video = some (video_upload_path none r.filename)
        ∧ video_upload_path none r.filename =
            "videos/original/None/" ++ r.filename)
    ∧ (∀ (i : Nat) (rn : String),
        outRel i rn = "videos/processed/" ++ toString i ++ "/" ++ rn
        ∧ manifestRel i rn = outRel i rn ++ "/index.m3u8")
    ∧ (∀ (i : Nat) (rn : String) (k : Nat),
        segmentRel i rn k = outRel i rn ++ "/" ++ pad3 k ++ ".ts")
    ∧ (∀ i : Nat, thumbRel i = "videos/thumbnails/" ++ toString i ++ ".jpg")
    ∧ (∀ (env : WorkerEnv) (db : List Video) (id : Nat) (v : Video),
        dbFind db id = some v → truthy v.original_video = true →
        env.sourceExists = true → env.encodeOk "480p" = true →
        env.encodeOk "720p" = true → env.encodeOk "1080p" = true →
        env.thumbOk = true →
        (process_video env db id).writes =
          (manifestRel id "480p" ::
            (List.range env.segCount).map (segmentRel id "480p"))
          ++ (manifestRel id "720p" ::
            (List.range env.segCount).map (segmentRel id "720p"))
          ++ (manifestRel id "1080p" ::
            (List.range env.segCount).map (segmentRel id "1080p"))
          ++ [thumbRel id]
        ∧ dbFind (finalDb env db id) id = some
            { v with
              processing_status := "completed"
              thumbnail_url := thumbRel id
              hls_480p_path := some (outRel id "480p")
              hls_720p_path := some (outRel id "720p")
              hls_1080p_path := some (outRel id "1080p") }) := by
  refine ⟨fun i filename => rfl, ?_, fun i rn => ⟨rfl, rfl⟩,
    fun i rn k => rfl, fun i => rfl, ?_⟩
  · intro db q n r db' q' v hc
    rcases create_error_or_ok db q n r with ⟨e, he⟩ | he
    · rw [he] at hc
      cases hc
    · rw [he] at hc
      have hv : v = newVideo n r := congrArg (fun x => x.2.2) (Except.ok.inj hc.symm)
      rw [hv]
      exact ⟨rfl, rfl⟩
  · intro env db id v hf ho hs h4 h7 h10 ht
    have hvid : v.id = id := dbFind_eq_some_id hf
    have hcid : (completedRec v).id = id := hvid
    have hrun := process_video_success env db id v hf ho hs h4 h7 h10 ht
    have hfin := finalDb_success_eq env db id v hf ho hs h4 h7 h10 ht
    have hf1 : dbFind (dbSetStatus db id "processing") id =
        some { v with processing_status := "processing" } :=
      dbFind_dbSetStatus_of_find "processing" hf
    have hrec : completedRec v =
        { v with
          processing_status := "completed"
          thumbnail_url := thumbRel id
          hls_480p_path := some (outRel id "480p")
          hls_720p_path := some (outRel id "720p")
          hls_1080p_path := some (outRel id "1080p") } := by
      unfold completedRec
      rw [hvid]
    constructor
    · rw [hrun]
      show canonicalWrites env v.id = _
      rw [hvid]
      rfl
    · rw [hfin, ← hrec]
      exact dbFind_dbUpdate_self hcid hf1

theorem C9_storage_layout_witness :
    dbFind [c3video] 1 = some c3video
    ∧ dbFind (finalDb demoEnv [c3video] 1) 1 = some
        { c3video with
          processing_status := "completed"
          thumbnail_url := thumbRel 1
          hls_480p_path := some (outRel 1 "480p")
          hls_720p_path := some (outRel 1 "720p")
          hls_1080p_path := some (outRel 1 "1080p") } :=
  ⟨by decide,
    (C9_storage_layout.2.2.2.2.2 demoEnv [c3video] 1 c3video (by decide)
      (by decide) (by decide) (by decide) (by decide) (by decide) (by decide)).2⟩

/-- C9 counterexample: the asset created for `demoReq` is assigned id 1, yet
its stored original path is `videos/original/None/demo.mp4` — not
`videos/original/1/demo.mp4` as the claim's `<asset_id>` layout asserts —
because `upload_to` runs while `instance.id` is still `None`. -/
theorem C9_counterexample :
    create [] [] 1 demoReq = .ok ([newVideo 1 demoReq], [1], newVideo 1 demoReq)
    ∧ (newVideo 1 demoReq).id = 1
    ∧ (newVideo 1 demoReq).original_video = some "videos/original/None/demo.mp4"
    ∧ (newVideo 1 demoReq).original_video ≠ some "videos/original/1/demo.mp4" :=
  ⟨by rfl, by decide, by decide, by decide⟩

/-- C7: the code joins the raw `segment` route parameter into the filesystem
path with no safe-filename validation, so a traversal name escapes the
rendition directory: for completed asset 1 with 480p directory
`videos/processed/1/480p`, requesting segment `"../../../secret.txt"`
serves the file at `media/videos/secret.txt`, which lies outside the
rendition directory — the validation the specification requires is absent. -/
theorem C7_path_traversal :
    video_segment [["media", "videos", "secret.txt"]] [c1video] 1 "480p"
        "../../../secret.txt" = .ok ["media", "videos", "secret.txt"]
    ∧ ¬ withinDir (resolvePath (MEDIA_ROOT ++ "/" ++ "videos/processed/1/480p"))
        ["media", "videos", "secret.txt"] :=
  ⟨by decide, by decide⟩
